import Mathlib

/-!
# task-timer: a verification development

A shallow embedding of `main.go` (a command-line task timer that keeps one
SQLite table `tasks(id, name, start_time, end_time, status)`), followed by the
properties proved about it.

Layout: definitions first (library models, the store, the command handlers,
traces of commands), then lemmas and theorems.
-/

namespace TaskTimer

/-! ## Library model: IEEE-754 binary64, as used by `time.Duration` -/

/-- Nearest integer to a rational, ties going to the even neighbour. -/
def roundTiesEven (q : ℚ) : Int :=
  let f := ⌊q⌋
  let r := q - f
  if r < 1 / 2 then f
  else if 1 / 2 < r then f + 1
  else if f % 2 = 0 then f else f + 1

/-- Binary exponent of the unit in the last place of the binary64 binade that
holds the non-negative rational `q` (53 significant bits, subnormal floor at
`2 ^ (-1074)`). -/
def ulpExp (q : ℚ) : Int :=
  max (Int.log 2 q - 52) (-1074)

/-- The binary64 value nearest to a rational (round to nearest, ties to even),
which is what a Go `float64` conversion, division or addition yields on exact
operands. Overflow to infinity is left out: every value formed from an `int64`
below stays under `2 ^ 64`. -/
def f64 (q : ℚ) : ℚ :=
  if 0 ≤ q then (roundTiesEven (q / 2 ^ ulpExp q) : ℚ) * 2 ^ ulpExp q
  else -((roundTiesEven (-q / 2 ^ ulpExp (-q)) : ℚ) * 2 ^ ulpExp (-q))

/-- Go's conversion `int(x)` of a `float64`: the fraction is discarded
(truncation towards zero). -/
def truncToInt (x : ℚ) : Int :=
  if 0 ≤ x then ⌊x⌋ else ⌈x⌉

/-! ## Library model: `time.Duration` -/

/-- A `time.Duration`: a signed count of nanoseconds (an `int64`). -/
abbrev Duration := Int

/-- Largest `time.Duration`, `1<<63 - 1` nanoseconds. -/
def maxDuration : Duration := 2 ^ 63 - 1

/-- Smallest `time.Duration`, `-1 << 63` nanoseconds. -/
def minDuration : Duration := -(2 ^ 63)

/-- The constant `time.Second`. -/
def Second : Duration := 1000000000

/-- The constant `time.Minute`. -/
def Minute : Duration := 60 * Second

/-- The constant `time.Hour`. -/
def Hour : Duration := 60 * Minute

/-- The method `Duration.Seconds`: `float64(sec) + float64(nsec)/1e9` with
`sec := d / Second` and `nsec := d % Second` (Go's truncated division). -/
def Duration.Seconds (d : Duration) : ℚ :=
  let sec := d.tdiv Second
  let nsec := d.tmod Second
  f64 (f64 sec + f64 (f64 nsec / 1000000000))

/-- The method `Duration.Minutes`: `float64(min) + float64(nsec)/(60*1e9)`. -/
def Duration.Minutes (d : Duration) : ℚ :=
  let min := d.tdiv Minute
  let nsec := d.tmod Minute
  f64 (f64 min + f64 (f64 nsec / 60000000000))

/-- The method `Duration.Hours`: `float64(hour) + float64(nsec)/(60*60*1e9)`. -/
def Duration.Hours (d : Duration) : ℚ :=
  let hour := d.tdiv Hour
  let nsec := d.tmod Hour
  f64 (f64 hour + f64 (f64 nsec / 3600000000000))

/-! ## Library model: `fmt` verbs -/

/-- Left-pad a digit string with `'0'` up to `w` characters. -/
def zeroPad (w : Nat) (s : String) : String :=
  String.mk (List.replicate (w - s.length) '0') ++ s

/-- The verb `%02d`: decimal digits, zero-padded so that the text is at least
two characters wide; the sign of a negative number takes one of the two
columns and comes before the padding. -/
def fmt02d (n : Int) : String :=
  if n < 0 then "-" ++ zeroPad 1 (Nat.repr n.natAbs) else zeroPad 2 (Nat.repr n.natAbs)

/-- The verb `%d`. -/
def fmtd (n : Int) : String :=
  if n < 0 then "-" ++ Nat.repr n.natAbs else Nat.repr n.natAbs

/-! ## `formatDuration` (main.go, lines 174-179) -/

/-- Render a duration as `HH:MM:SS`. -/
def formatDuration (d : Duration) : String :=
  let h := truncToInt (Duration.Hours d)
  let m := (truncToInt (Duration.Minutes d)).tmod 60
  let s := (truncToInt (Duration.Seconds d)).tmod 60
  fmt02d h ++ ":" ++ fmt02d m ++ ":" ++ fmt02d s

/-- A natural number in decimal, zero-padded to at least two digits, as the
specification words it. -/
def twoDigits (n : Nat) : String :=
  if n < 10 then "0" ++ Nat.repr n else Nat.repr n

/-- The text `HH:MM:SS` of the specification for `t` whole seconds:
`HH = t / 3600`, `MM = (t / 60) mod 60`, `SS = t mod 60`. -/
def specHMS (t : Nat) : String :=
  twoDigits (t / 3600) ++ ":" ++ twoDigits (t / 60 % 60) ++ ":" ++ twoDigits (t % 60)

/-! ## Library model: the calendar -/

/-- Year, month and day of the proleptic Gregorian calendar for a count of
days from 1970-01-01. -/
def civilFromDays (days : Int) : Int × Int × Int :=
  let z := days + 719468
  let era := z / 146097
  let doe := z % 146097
  let yoe := (doe - doe / 1460 + doe / 36524 - doe / 146096) / 365
  let doy := doe - (365 * yoe + yoe / 4 - yoe / 100)
  let mp := (5 * doy + 2) / 153
  let d := doy - (153 * mp + 2) / 5 + 1
  let m := if mp < 10 then mp + 3 else mp - 9
  let y := yoe + era * 400 + (if m ≤ 2 then 1 else 0)
  (y, m, d)

/-- The fields of a date and time of day. -/
structure Civil where
  year : Int
  month : Int
  day : Int
  hour : Int
  minute : Int
  second : Int
deriving DecidableEq

/-- Date and time of day shown by a clock face that has counted `secs` seconds
since its 1970-01-01 00:00:00. -/
def civilOfSeconds (secs : Int) : Civil :=
  { year := (civilFromDays (secs / 86400)).1,
    month := (civilFromDays (secs / 86400)).2.1,
    day := (civilFromDays (secs / 86400)).2.2,
    hour := secs % 86400 / 3600,
    minute := secs % 86400 / 60 % 60,
    second := secs % 86400 % 60 }

/-! ## Library model: `time.Time` and `sql.NullTime` -/

/-- A `time.Time`: an instant, counted in nanoseconds from the Unix epoch, and
the offset of its location, in seconds east of UTC. -/
structure Time where
  unix : Int
  offset : Int
deriving DecidableEq

/-- The zero `time.Time`: January 1 of year 1, 00:00:00 UTC. -/
def zeroTime : Time :=
  { unix := -62135596800 * 1000000000, offset := 0 }

/-- The method `Time.IsZero`: the instant is that of the zero time. -/
def Time.IsZero (t : Time) : Bool :=
  decide (t.unix = zeroTime.unix)

/-- A difference of instants as a `Duration`, saturating at the largest and
smallest `Duration`. -/
def saturate (d : Int) : Duration :=
  if maxDuration < d then maxDuration
  else if d < minDuration then minDuration
  else d

/-- The method `Time.Sub`: the difference `t - u` of the two instants,
saturating. -/
def Time.Sub (t u : Time) : Duration :=
  saturate (t.unix - u.unix)

/-- Go's `appendInt`: a minus sign for a negative number, then the decimal
digits zero-padded to `width`. -/
def appendInt (x : Int) (width : Nat) : String :=
  (if x < 0 then "-" else "") ++ zeroPad width (Nat.repr x.natAbs)

/-- The text `Time.Format` writes for a layout, chunk by chunk. The reference
elements read here are those of the layout of main.go (`2006`, `01`, `02`,
`15`, `04`, `05`); every other character is copied. -/
def formatChunks : List Char → Civil → String
  | '2' :: '0' :: '0' :: '6' :: rest, c => appendInt c.year 4 ++ formatChunks rest c
  | '0' :: '1' :: rest, c => appendInt c.month 2 ++ formatChunks rest c
  | '0' :: '2' :: rest, c => appendInt c.day 2 ++ formatChunks rest c
  | '1' :: '5' :: rest, c => appendInt c.hour 2 ++ formatChunks rest c
  | '0' :: '4' :: rest, c => appendInt c.minute 2 ++ formatChunks rest c
  | '0' :: '5' :: rest, c => appendInt c.second 2 ++ formatChunks rest c
  | ch :: rest, c => String.singleton ch ++ formatChunks rest c
  | [], _ => ""

/-- The method `Time.Format`: the layout filled with the date and time of day
of the instant in the location of `t`. -/
def Time.Format (t : Time) (layout : String) : String :=
  formatChunks layout.data (civilOfSeconds (t.unix / 1000000000 + t.offset))

/-- A `sql.NullTime`: `Valid` is false when the column was NULL, and `Time` is
then the zero time. -/
structure NullTime where
  Time : Time
  Valid : Bool
deriving DecidableEq

/-! ## The host and the engine

The program reads the clock with `time.Now()`: a reading is a number of
nanoseconds since the Unix epoch, a natural number, taken in the local zone of
the host. The driver binds a `time.Time` as text in the layout
`2006-01-02 15:04:05.999999999-07:00`, that is, local date and time of day
followed by the zone offset, and reads it back into a `time.Time` at that
offset. (A reading after the year 9999, which that layout cannot hold, is not
considered.) -/

/-- What differs from host to host. Every theorem below that starts
`(h : Host)` holds whatever the two functions are. -/
structure Host where
  /-- The integer an `INTEGER PRIMARY KEY` is compared with when the bound
  parameter is TEXT (the engine applies numeric affinity to the text); `none`
  when the text is not turned into an integer, and then it equals no row id. -/
  rowid : String → Option Int
  /-- Offset of the host's local zone at a reading, in seconds east of UTC. -/
  offset : Nat → Int

/-- The SQL function `DATE(x)` on a stored timestamp: the engine takes the zone
offset of the stored text off, and answers the date of the instant in UTC, as
`YYYY-MM-DD`. (The engine counts time in whole milliseconds; a reading in the
last half millisecond of a UTC day, which it may round up to the next day, is
not considered.) -/
def sqlDate (t : Nat) : String :=
  appendInt (civilFromDays ((t : Int) / 1000000000 / 86400)).1 4 ++ "-" ++
    fmt02d (civilFromDays ((t : Int) / 1000000000 / 86400)).2.1 ++ "-" ++
    fmt02d (civilFromDays ((t : Int) / 1000000000 / 86400)).2.2

/-! ## The engine's numeric affinity

`WHERE id = ?` with a TEXT parameter: the engine reads the text as a number
(`sqlite3AtoF`: blanks, a sign, digits, a fraction, an exponent, blanks) and
looks the row up only when the number is an integer. -/

/-- The characters `sqlite3Isspace` accepts: space, tab, line feed, vertical
tab, form feed, carriage return. -/
def isSpace (c : Char) : Bool :=
  c.toNat == 32 || (decide (9 ≤ c.toNat) && decide (c.toNat ≤ 13))

/-- A number read from text: sign, digits before the point, whether there is
a point, digits after it, and the exponent (its sign and digits) if there is
one. -/
structure NumLit where
  neg : Bool
  whole : List Char
  point : Bool
  frac : List Char
  exp : Option (Bool × List Char)
deriving DecidableEq

/-- An optional sign. -/
def readSign : List Char → Bool × List Char
  | '-' :: cs => (true, cs)
  | '+' :: cs => (false, cs)
  | cs => (false, cs)

/-- An optional fraction: a point and the digits after it. -/
def readFraction : List Char → Bool × List Char × List Char
  | '.' :: cs => (true, cs.span Char.isDigit)
  | cs => (false, [], cs)

/-- An optional exponent: `e` or `E`, a sign and digits. -/
def readExponent : List Char → Option (Bool × List Char) × List Char
  | 'e' :: cs =>
    (some ((readSign cs).1, ((readSign cs).2.span Char.isDigit).1),
      ((readSign cs).2.span Char.isDigit).2)
  | 'E' :: cs =>
    (some ((readSign cs).1, ((readSign cs).2.span Char.isDigit).1),
      ((readSign cs).2.span Char.isDigit).2)
  | cs => (none, cs)

/-- The text as a number, when all of it is one: there is at least one digit
before or after the point, an exponent has at least one digit, and nothing but
blanks comes before and after. -/
def readNumLit (s : List Char) : Option NumLit :=
  let s1 := readSign (s.dropWhile isSpace)
  let s2 := s1.2.span Char.isDigit
  let s3 := readFraction s2.2
  let s4 := readExponent s3.2.2
  if s4.2.dropWhile isSpace = [] ∧ s2.1 ++ s3.2.1 ≠ [] ∧
      (∀ e, s4.1 = some e → e.2 ≠ []) then
    some { neg := s1.1, whole := s2.1, point := s3.1, frac := s3.2.1, exp := s4.1 }
  else none

/-- Value of a string of decimal digits. -/
def digitsValue (cs : List Char) : Nat :=
  cs.foldl (fun n c => 10 * n + (c.toNat - 48)) 0

/-- The exact value of a number read from text. -/
def NumLit.value (n : NumLit) : ℚ :=
  (if n.neg then -1 else 1) * (digitsValue (n.whole ++ n.frac) : ℚ) *
    10 ^ ((match n.exp with
            | some (true, ds) => -(digitsValue ds : Int)
            | some (false, ds) => (digitsValue ds : Int)
            | none => 0) - (n.frac.length : Int))

/-- Numeric affinity for a row id. Text that is an integer literal gives that
integer when it fits 64 bits. Text with a point or an exponent is a REAL, the
binary64 value nearest to it, and gives an integer when that value is one,
strictly between the least and the greatest 64-bit integer. Any other text
gives nothing. (The engine's own conversion keeps about 19 significant digits;
the nearest binary64 value is taken here.) -/
def numericRowid (s : String) : Option Int :=
  match readNumLit s.data with
  | none => none
  | some n =>
    if n.point = false ∧ n.exp = none then
      (if -(2 ^ 63 : Int) ≤ (if n.neg then -(digitsValue n.whole : Int) else digitsValue n.whole) ∧
          (if n.neg then -(digitsValue n.whole : Int) else digitsValue n.whole) ≤ 2 ^ 63 - 1 then
        some (if n.neg then -(digitsValue n.whole : Int) else digitsValue n.whole)
      else none)
    else
      (if (f64 n.value).den = 1 ∧ -(2 ^ 63 : Int) < (f64 n.value).num ∧
          (f64 n.value).num < 2 ^ 63 - 1 then
        some (f64 n.value).num
      else none)

/-! ## The table `tasks` (main.go, lines 101-113) -/

/-- One row of `tasks(id, name, start_time, end_time, status)`. A timestamp
column holds NULL (`none`) or a clock reading. -/
structure Task where
  id : Nat
  name : String
  start_time : Option Nat
  end_time : Option Nat
  status : String
deriving DecidableEq

/-- The database: the rows of `tasks` and the AUTOINCREMENT counter the engine
keeps for the table in `sqlite_sequence` (the largest row id ever handed out). -/
structure Store where
  seq : Nat
  rows : List Task
deriving DecidableEq

/-- `CREATE TABLE IF NOT EXISTS tasks (...)`: an existing table is kept as it
is, a missing one (`none`) is created empty. -/
def createTable (db : Option Store) : Store :=
  match db with
  | some s => s
  | none => { seq := 0, rows := [] }

/-- Largest row id present in the table (0 for the empty table). -/
def maxRowid (rows : List Task) : Nat :=
  rows.foldl (fun m r => max m r.id) 0

/-- Row id chosen by `INTEGER PRIMARY KEY AUTOINCREMENT`: one more than the
largest id in the table and than the largest id ever handed out. -/
def newRowid (s : Store) : Nat :=
  max (maxRowid s.rows) s.seq + 1

/-- `INSERT INTO tasks (name, status) VALUES (?, ?)`: the columns not named
are NULL. -/
def insertTask (s : Store) (name status : String) : Store :=
  { seq := newRowid s,
    rows := s.rows ++ [{ id := newRowid s, name := name, start_time := none,
                         end_time := none, status := status }] }

/-- The condition `WHERE id = ?` with a TEXT parameter. -/
def rowMatches (h : Host) (arg : String) (r : Task) : Bool :=
  match h.rowid arg with
  | some k => decide ((r.id : Int) = k)
  | none => false

/-- `UPDATE tasks SET start_time = ?, status = ? WHERE id = ?`. -/
def updateStart (h : Host) (s : Store) (now : Nat) (status arg : String) : Store :=
  { s with rows := s.rows.map fun r =>
      if rowMatches h arg r then { r with start_time := some now, status := status } else r }

/-- `UPDATE tasks SET end_time = ?, status = ? WHERE id = ?`. -/
def updateEnd (h : Host) (s : Store) (now : Nat) (status arg : String) : Store :=
  { s with rows := s.rows.map fun r =>
      if rowMatches h arg r then { r with end_time := some now, status := status } else r }

/-- `DELETE FROM tasks WHERE id = ?`. -/
def deleteRows (h : Host) (s : Store) (arg : String) : Store :=
  { s with rows := s.rows.filter fun r => !rowMatches h arg r }

/-! ## The command line -/

/-- A `cli.Context` after parsing: the positional arguments and the flags that
were given, each with its value. -/
structure Context where
  args : List String
  flags : List (String × String)
deriving DecidableEq

/-- `c.Args().First()`: the first positional argument, or `""`. -/
def Context.First (c : Context) : String :=
  c.args.headD ""

/-- `c.String(name)`: the value of a string flag, or `""` when it was not
given. -/
def Context.flag (c : Context) (name : String) : String :=
  (c.flags.lookup name).getD ""

/-- What a handler leaves behind: its `error` return (`none` is `nil`), the
text it wrote to standard output, and the table. A failing `db.Exec` or
`db.Query` (input/output errors, a full database) is outside the model: every
statement executes. -/
structure Result where
  err : Option String
  out : String
  db : Store
deriving DecidableEq

/-! ## The handlers (main.go, lines 115-232) -/

/-- The handler `addTask`. -/
def addTask (s : Store) (c : Context) : Result :=
  let name := c.First
  if name = "" then
    { err := some "task name is required", out := "", db := s }
  else
    { err := none, out := "Task added: " ++ name ++ "\n", db := insertTask s name "pending" }

/-- One condition appended to the `WHERE 1=1` of the listing query; each takes
the next positional parameter. -/
inductive Cond where
  /-- The text `AND status = ?`. -/
  | statusEq
  /-- The text `AND DATE(start_time) = ?`. -/
  | dateEq
deriving DecidableEq

/-- The query text and the parameter list that `listTasks` builds from its two
filters. -/
def listQuery (statusFilter dateFilter : String) : List Cond × List String :=
  let q0 : List Cond × List String := ([], [])
  let q1 := if statusFilter ≠ "" then (q0.1 ++ [Cond.statusEq], q0.2 ++ [statusFilter]) else q0
  let q2 := if dateFilter ≠ "" then (q1.1 ++ [Cond.dateEq], q1.2 ++ [dateFilter]) else q1
  q2

/-- Truth of one condition on a row; a comparison with NULL is not true. -/
def Cond.holds : Cond → String → Task → Bool
  | Cond.statusEq, a, r => r.status == a
  | Cond.dateEq, a, r =>
    match r.start_time with
    | none => false
    | some t => sqlDate t == a

/-- Truth of `1=1 AND c1 AND c2 ...` on a row, the parameters bound in order
(a parameter left unbound is NULL). -/
def whereHolds : List Cond → List String → Task → Bool
  | [], _, _ => true
  | _ :: _, [], _ => false
  | c :: cs, a :: rest, r => c.holds a r && whereHolds cs rest r

/-- The rows returned by `SELECT id, name, start_time, end_time, status FROM
tasks WHERE ...`. -/
def selectTasks (q : List Cond × List String) (rows : List Task) : List Task :=
  rows.filter (whereHolds q.1 q.2)

/-- `rows.Scan` of a timestamp column into a `sql.NullTime`: NULL gives the
zero time and `Valid = false`; a stored reading comes back as that instant at
the zone offset it was written with. -/
def scanTime (h : Host) : Option Nat → NullTime
  | none => { Time := zeroTime, Valid := false }
  | some t => { Time := { unix := (t : Int), offset := h.offset t }, Valid := true }

/-- The function `formatTime`. -/
def formatTime (t : Time) : String :=
  if Time.IsZero t then "N/A" else Time.Format t "2006-01-02 15:04:05"

/-- The body of the `rows.Next()` loop of `listTasks`: the two lines printed
for one row. -/
def printTask (h : Host) (r : Task) : String :=
  let startTime := scanTime h r.start_time
  let endTime := scanTime h r.end_time
  let duration :=
    if startTime.Valid && endTime.Valid then
      formatDuration (Time.Sub endTime.Time startTime.Time)
    else if startTime.Valid then "in progress"
    else "not started"
  fmtd r.id ++ ": " ++ r.name ++ " [" ++ r.status ++ "]\n" ++
    ("   Duration: " ++ duration ++ " Start: " ++ formatTime startTime.Time ++
      " End: " ++ formatTime endTime.Time ++ "\n")

/-- The rows the loop of `listTasks` runs over. (The query does not depend on
the host: `DATE` works on the instant.) -/
def listed (_h : Host) (s : Store) (c : Context) : List Task :=
  let statusFilter := c.flag "status"
  let dateFilter := c.flag "date"
  selectTasks (listQuery statusFilter dateFilter) s.rows

/-- The handler `listTasks`. -/
def listTasks (h : Host) (s : Store) (c : Context) : Result :=
  { err := none, out := String.join ((listed h s c).map (printTask h)), db := s }

/-- The handler `startTask`; `now` is the reading of `time.Now()`. -/
def startTask (h : Host) (s : Store) (now : Nat) (c : Context) : Result :=
  let id := c.First
  { err := none, out := "Task started: " ++ id ++ "\n",
    db := updateStart h s now "in-progress" id }

/-- The handler `stopTask`. -/
def stopTask (h : Host) (s : Store) (now : Nat) (c : Context) : Result :=
  let id := c.First
  { err := none, out := "Task stopped: " ++ id ++ "\n",
    db := updateEnd h s now "stopped" id }

/-- The handler `deleteTask`. -/
def deleteTask (h : Host) (s : Store) (c : Context) : Result :=
  let id := c.First
  { err := none, out := "Task deleted: " ++ id ++ "\n", db := deleteRows h s id }

/-- The handler `completeTask`. -/
def completeTask (h : Host) (s : Store) (now : Nat) (c : Context) : Result :=
  let id := c.First
  { err := none, out := "Task completed: " ++ id ++ "\n",
    db := updateEnd h s now "completed" id }

/-- The handler `saveTasks`. -/
def saveTasks (s : Store) : Result :=
  { err := none, out := "Tasks saved to SQLite database\n", db := s }

/-! ## Runs of the program -/

/-- The entries of `Commands` in `main`. -/
inductive Cmd where
  | add | list | start | stop | delete | complete | save
deriving DecidableEq

/-- The command a name or alias selects. -/
def Cmd.ofName (name : String) : Option Cmd :=
  if name = "add" ∨ name = "a" then some Cmd.add
  else if name = "list" ∨ name = "ls" then some Cmd.list
  else if name = "start" ∨ name = "s" then some Cmd.start
  else if name = "stop" ∨ name = "t" then some Cmd.stop
  else if name = "delete" ∨ name = "del" ∨ name = "d" then some Cmd.delete
  else if name = "complete" ∨ name = "c" then some Cmd.complete
  else if name = "save" ∨ name = "sv" then some Cmd.save
  else none

/-- One run of the program: the command, its parsed context, and the clock
reading `time.Now()` gives during the run. -/
structure Call where
  cmd : Cmd
  ctx : Context
  now : Nat
deriving DecidableEq

/-- The `Action` of a command, applied to the table. -/
def dispatch (h : Host) (s : Store) (call : Call) : Result :=
  match call.cmd with
  | Cmd.add => addTask s call.ctx
  | Cmd.list => listTasks h s call.ctx
  | Cmd.start => startTask h s call.now call.ctx
  | Cmd.stop => stopTask h s call.now call.ctx
  | Cmd.delete => deleteTask h s call.ctx
  | Cmd.complete => completeTask h s call.now call.ctx
  | Cmd.save => saveTasks s

/-- The table after a sequence of runs. -/
def run (h : Host) : Store → List Call → Store
  | s, [] => s
  | s, c :: cs => run h (dispatch h s c).db cs

/-- The clock never goes backwards along a sequence of runs that starts when
the clock reads `t`. -/
def clockMonotone : Nat → List Call → Bool
  | _, [] => true
  | t, c :: cs => decide (t ≤ c.now) && clockMonotone c.now cs

/-- The last clock reading of a sequence of runs that starts at reading `t`. -/
def lastClock : Nat → List Call → Nat
  | t, [] => t
  | _, c :: cs => lastClock c.now cs

/-- Identifiers of the rows each run of a sequence appends to the table, in
the order of the runs: the identifiers the adds assign. -/
def createdIds (h : Host) : Store → List Call → List Nat
  | _, [] => []
  | s, c :: cs =>
    ((dispatch h s c).db.rows.drop s.rows.length).map (fun r => r.id) ++
      createdIds h (dispatch h s c).db cs

/-- No `start` of the sequence hits a row whose `end_time` is already set. -/
def startsUnended (h : Host) : Store → List Call → Bool
  | _, [] => true
  | s, c :: cs =>
    (decide (c.cmd ≠ Cmd.start) ||
        s.rows.all (fun r => !rowMatches h c.ctx.First r || r.end_time.isNone)) &&
      startsUnended h (dispatch h s c).db cs

/-! ## Go's integer syntax -/

/-- Whether `strconv.Atoi` accepts the text, its range apart: an optional sign
followed by at least one decimal digit and nothing else. -/
def parsesAsInteger (s : String) : Bool :=
  match s.data with
  | '-' :: cs => !cs.isEmpty && cs.all Char.isDigit
  | '+' :: cs => !cs.isEmpty && cs.all Char.isDigit
  | cs => !cs.isEmpty && cs.all Char.isDigit

/-! ## Sample hosts

Hosts that serve to evaluate the handlers on concrete tables. -/

/-- A host whose local zone is UTC. -/
def utcHost : Host :=
  { rowid := numericRowid, offset := fun _ => 0 }

/-- A host whose local zone is five hours west of UTC. -/
def westHost : Host :=
  { rowid := numericRowid, offset := fun _ => -18000 }

/-! ## The specification's side

Definitions that follow the words of the specification, to be compared with
the handlers above. -/

/-- A flag value read as a filter: the empty text means that the filter was
not supplied. -/
def supplied (v : String) : Option String :=
  if v = "" then none else some v

/-- The calendar date, in UTC, on which a reading falls, written
`YYYY-MM-DD`: four digits of the year, two of the month, two of the day. -/
def specDate (t : Nat) : String :=
  zeroPad 4 (Nat.repr (civilOfSeconds ((t : Int) / 1000000000)).year.toNat) ++ "-" ++
    twoDigits (civilOfSeconds ((t : Int) / 1000000000)).month.toNat ++ "-" ++
    twoDigits (civilOfSeconds ((t : Int) / 1000000000)).day.toNat

/-- The filters of the specification on one row: the stored status equals the
status filter, and `start_time` is set and falls on the calendar date of the
date filter; a filter that is not supplied asks nothing. -/
def SpecSelected (status date : Option String) (r : Task) : Prop :=
  (∀ v, status = some v → r.status = v) ∧
  (∀ d, date = some d → ∃ t, r.start_time = some t ∧ specDate t = d)

/-- The duration field of the specification: the formatted difference when
both timestamps are present, `in progress` when only `start_time` is, and
`not started` in every other case. -/
def specDuration (r : Task) : String :=
  match r.start_time, r.end_time with
  | some a, some b => formatDuration (saturate ((b : Int) - (a : Int)))
  | some _, none => "in progress"
  | none, _ => "not started"

/-- A date and time of day written `YYYY-MM-DD HH:MM:SS`: the year in at least
four digits, then month, day, hour, minute and second in two digits each. -/
def specStampText (c : Civil) : String :=
  (if c.year < 0 then "-" else "") ++ zeroPad 4 (Nat.repr c.year.natAbs) ++ "-" ++
    twoDigits c.month.toNat ++ "-" ++ twoDigits c.day.toNat ++ " " ++
    twoDigits c.hour.toNat ++ ":" ++ twoDigits c.minute.toNat ++ ":" ++
    twoDigits c.second.toNat

/-- A timestamp field of the specification: the timestamp formatted as
`YYYY-MM-DD HH:MM:SS`, on the clock face of the zone it was written in, when it
is present, and `N/A` when it is absent. -/
def specStamp (h : Host) : Option Nat → String
  | some t => specStampText (civilOfSeconds ((t : Int) / 1000000000 + h.offset t))
  | none => "N/A"

/-- The two lines of the specification for one listed task. -/
def specLines (h : Host) (r : Task) : String :=
  Nat.repr r.id ++ ": " ++ r.name ++ " [" ++ r.status ++ "]\n" ++
    ("   Duration: " ++ specDuration r ++ " Start: " ++ specStamp h r.start_time ++
      " End: " ++ specStamp h r.end_time ++ "\n")

/-- What `start` may do to a row when the query parameter reads as `key`: the
identifier, the name and `end_time` stay; the row with that identifier gets the
clock reading as `start_time` and the status `in-progress`; any other row
stays as it is. -/
def startFrame (key : Option Int) (now : Nat) (old new : Task) : Prop :=
  new.id = old.id ∧ new.name = old.name ∧ new.end_time = old.end_time ∧
    (key = some (old.id : Int) → new.start_time = some now ∧ new.status = "in-progress") ∧
    (key ≠ some (old.id : Int) → new = old)

/-- What `stop` and `complete` may do to a row: the identifier, the name and
`start_time` stay; the row with the identifier `key` gets the clock reading as
`end_time` and the given status; any other row stays as it is. -/
def endFrame (key : Option Int) (now : Nat) (status : String) (old new : Task) : Prop :=
  new.id = old.id ∧ new.name = old.name ∧ new.start_time = old.start_time ∧
    (key = some (old.id : Int) → new.end_time = some now ∧ new.status = status) ∧
    (key ≠ some (old.id : Int) → new = old)

/-- The rows with identifier `k` have no `start_time` after the reading `t`. -/
def startsBefore (k : Nat) (t : Nat) (s : Store) : Prop :=
  ∀ r ∈ s.rows, r.id = k → ∀ a, r.start_time = some a → a ≤ t

/-- Every timestamp of the table is a reading of at most `t`, and `start_time`
is not after `end_time` where both are set. -/
def timesOrdered (t : Nat) (s : Store) : Prop :=
  ∀ r ∈ s.rows,
    (∀ a, r.start_time = some a → a ≤ t) ∧ (∀ b, r.end_time = some b → b ≤ t) ∧
      (∀ a b, r.start_time = some a → r.end_time = some b → a ≤ b)

/-! ## Concrete tables and runs -/

/-- A table holding one pending task. -/
def sampleTable : Store :=
  { seq := 1,
    rows := [{ id := 1, name := "write report", start_time := none, end_time := none,
               status := "pending" }] }

/-- A context with one positional argument and no flag. -/
def argContext (a : String) : Context :=
  { args := [a], flags := [] }

/-- A context with no argument and one flag. -/
def flagContext (name value : String) : Context :=
  { args := [], flags := [(name, value)] }

/-- A table holding one task, started at 2024-11-05 01:00:00 UTC, which is
2024-11-04 20:00:00 five hours west of UTC. -/
def eveningTable : Store :=
  { seq := 1,
    rows := [{ id := 1, name := "write report", start_time := some 1730768400000000000,
               end_time := none, status := "in-progress" }] }

/-- Three runs: a task is added, stopped at reading 5, and started at
reading 10. -/
def restartTrace : List Call :=
  [{ cmd := Cmd.add, ctx := argContext "write report", now := 1 },
   { cmd := Cmd.stop, ctx := argContext "1", now := 5 },
   { cmd := Cmd.start, ctx := argContext "1", now := 10 }]

/-- Three runs: a task is added, started at reading 5, and completed at
reading 10. -/
def orderedTrace : List Call :=
  [{ cmd := Cmd.add, ctx := argContext "write report", now := 1 },
   { cmd := Cmd.start, ctx := argContext "1", now := 5 },
   { cmd := Cmd.complete, ctx := argContext "1", now := 10 }]

/-! ## Lemmas: binary64 rounding -/

theorem roundTiesEven_le {q : ℚ} {B : Int} (h : q ≤ B) : roundTiesEven q ≤ B := by
  have hf : ⌊q⌋ ≤ B := by
    have : ((⌊q⌋ : Int) : ℚ) ≤ B := le_trans (Int.floor_le q) h
    exact_mod_cast this
  have hstep : (1 : ℚ) / 2 ≤ q - ⌊q⌋ → ⌊q⌋ + 1 ≤ B := by
    intro hr
    have h1 : ((⌊q⌋ : Int) : ℚ) < B := by linarith
    have : ⌊q⌋ < B := by exact_mod_cast h1
    omega
  unfold roundTiesEven
  simp only
  split_ifs with h1 h2 h3
  · exact hf
  · exact hstep (le_of_lt h2)
  · exact hf
  · exact hstep (not_lt.mp h1)

theorem le_roundTiesEven {q : ℚ} {A : Int} (h : (A : ℚ) ≤ q) : A ≤ roundTiesEven q := by
  have hf : A ≤ ⌊q⌋ := Int.le_floor.mpr h
  unfold roundTiesEven
  simp only
  split_ifs <;> omega

theorem ulpExp_le {q : ℚ} (hq : 0 < q) {j : Int} (hj : -1074 ≤ j)
    (h : q < 2 ^ (j + 53)) : ulpExp q ≤ j := by
  have hlog : Int.log 2 q < j + 53 := by
    have hb : 1 < 2 := by norm_num
    exact (Int.lt_zpow_iff_log_lt hb hq).mp (by simpa using h)
  unfold ulpExp
  exact max_le (by omega) hj

theorem f64_zero : f64 0 = 0 := by
  simp [f64, roundTiesEven]

theorem f64_le {q : ℚ} (hq : 0 ≤ q) (m : Nat) (j : Int) (hm : m < 2 ^ 53)
    (hj : -1074 ≤ j) (h : q ≤ m * 2 ^ j) : f64 q ≤ m * 2 ^ j := by
  rcases eq_or_lt_of_le hq with h0 | hpos
  · rw [← h0, f64_zero]; positivity
  have hlt : q < 2 ^ (j + 53) := by
    have h2 : (0 : ℚ) < 2 ^ j := by positivity
    have hm' : (m : ℚ) < 2 ^ (53 : ℕ) := by exact_mod_cast hm
    calc q ≤ m * 2 ^ j := h
      _ < 2 ^ (53 : ℕ) * 2 ^ j := by
          exact mul_lt_mul_of_pos_right hm' h2
      _ = 2 ^ (j + 53) := by
          rw [zpow_add₀ (by norm_num : (2 : ℚ) ≠ 0)]
          norm_num
          ring
  have he : ulpExp q ≤ j := ulpExp_le hpos hj hlt
  have hpe : (0 : ℚ) < 2 ^ ulpExp q := by positivity
  obtain ⟨k, hk⟩ : ∃ k : Nat, j = ulpExp q + k := ⟨(j - ulpExp q).toNat, by omega⟩
  have hsplit : (m : ℚ) * 2 ^ j = ((m * 2 ^ k : Int) : ℚ) * 2 ^ ulpExp q := by
    rw [hk, zpow_add₀ (by norm_num : (2 : ℚ) ≠ 0)]
    push_cast
    rw [zpow_natCast]
    ring
  have hr : roundTiesEven (q / 2 ^ ulpExp q) ≤ (m * 2 ^ k : Int) := by
    apply roundTiesEven_le
    rw [div_le_iff₀ hpe, ← hsplit]
    exact h
  rw [f64, if_pos hq, hsplit]
  have : ((roundTiesEven (q / 2 ^ ulpExp q) : Int) : ℚ) ≤ ((m * 2 ^ k : Int) : ℚ) := by
    exact_mod_cast hr
  exact mul_le_mul_of_nonneg_right this (le_of_lt hpe)

theorem le_f64 {q : ℚ} (hq : 0 ≤ q) (m : Nat) (j : Int) (hj : ulpExp q ≤ j)
    (h : (m : ℚ) * 2 ^ j ≤ q) : (m : ℚ) * 2 ^ j ≤ f64 q := by
  have hpe : (0 : ℚ) < 2 ^ ulpExp q := by positivity
  obtain ⟨k, hk⟩ : ∃ k : Nat, j = ulpExp q + k := ⟨(j - ulpExp q).toNat, by omega⟩
  have hsplit : (m : ℚ) * 2 ^ j = ((m * 2 ^ k : Int) : ℚ) * 2 ^ ulpExp q := by
    rw [hk, zpow_add₀ (by norm_num : (2 : ℚ) ≠ 0)]
    push_cast
    rw [zpow_natCast]
    ring
  have hr : (m * 2 ^ k : Int) ≤ roundTiesEven (q / 2 ^ ulpExp q) := by
    apply le_roundTiesEven
    rw [le_div_iff₀ hpe, ← hsplit]
    exact h
  rw [f64, if_pos hq, hsplit]
  have : ((m * 2 ^ k : Int) : ℚ) ≤ ((roundTiesEven (q / 2 ^ ulpExp q) : Int) : ℚ) := by
    exact_mod_cast hr
  exact mul_le_mul_of_nonneg_right this (le_of_lt hpe)

theorem ulpExp_nonpos {q : ℚ} (hq : 0 ≤ q) (h : q < 2 ^ 53) : ulpExp q ≤ 0 := by
  rcases eq_or_lt_of_le hq with h0 | hpos
  · rw [← h0]; simp [ulpExp]
  · exact ulpExp_le hpos (by norm_num) (by norm_num at h ⊢; exact h)

/-- A natural number below `2 ^ 53` is a binary64 value. -/
theorem f64_natCast (n : Nat) (h : n < 2 ^ 53) : f64 (n : ℚ) = n := by
  have hq : (0 : ℚ) ≤ n := by positivity
  have hlt : (n : ℚ) < 2 ^ 53 := by exact_mod_cast h
  apply le_antisymm
  · simpa using f64_le hq n 0 h (by norm_num) (by simp)
  · simpa using le_f64 hq n 0 (ulpExp_nonpos hq hlt) (by simp)

/-- The sum `float64(n) + float64(k)/c` of a whole count and a proper fraction
with a small denominator truncates to the whole count: rounding cannot carry
the fraction up to the next integer. -/
theorem truncToInt_f64_units (n k c : Nat) (hn : n < 2 ^ 40) (hk : k < c) (hc : c ≤ 4096) :
    truncToInt (f64 (f64 (n : ℚ) + f64 ((k : ℚ) / c))) = n := by
  have hcpos : (0 : ℚ) < c := by
    have : 0 < c := by omega
    exact_mod_cast this
  have hρ0 : (0 : ℚ) ≤ (k : ℚ) / c := by positivity
  have hρ1 : (k : ℚ) / c ≤ (4095 : ℕ) * 2 ^ (-12 : ℤ) := by
    rw [div_le_iff₀ hcpos]
    have h1 : (k : ℚ) + 1 ≤ c := by exact_mod_cast hk
    have h2 : (c : ℚ) ≤ 4096 := by exact_mod_cast hc
    norm_num
    nlinarith
  have hx0 : (0 : ℚ) ≤ f64 ((k : ℚ) / c) := by
    simpa using le_f64 hρ0 0 (ulpExp ((k : ℚ) / c)) le_rfl (by simpa using hρ0)
  have hx1 : f64 ((k : ℚ) / c) ≤ (4095 : ℕ) * 2 ^ (-12 : ℤ) :=
    f64_le hρ0 4095 (-12) (by norm_num) (by norm_num) hρ1
  rw [f64_natCast n (lt_trans hn (by norm_num))]
  set x := f64 ((k : ℚ) / c) with hx
  have hnq : (n : ℚ) < 2 ^ 40 := by exact_mod_cast hn
  have hy0 : (0 : ℚ) ≤ n + x := by positivity
  have hlo : (n : ℚ) ≤ f64 (n + x) := by
    have := le_f64 hy0 n 0 (ulpExp_nonpos hy0 (by norm_num at hx1 ⊢; linarith))
      (by simp; exact hx0)
    simpa using this
  have hhi : f64 (n + x) ≤ ((n * 4096 + 4095 : ℕ) : ℚ) * 2 ^ (-12 : ℤ) := by
    apply f64_le hy0 _ _ _ (by norm_num)
    · push_cast
      norm_num at hx1 ⊢
      linarith
    · have : n * 4096 + 4095 < 2 ^ 40 * 4096 := by omega
      exact lt_of_lt_of_le this (by norm_num)
  have hnn : (0 : ℚ) ≤ f64 (n + x) := le_trans (by positivity) hlo
  rw [truncToInt, if_pos hnn, Int.floor_eq_iff]
  constructor
  · exact_mod_cast hlo
  · push_cast at hhi
    norm_num at hhi
    push_cast
    linarith

/-! ## Lemmas: durations of whole seconds -/

theorem tdiv_tmod_whole (t u : Nat) :
    ((t : Int) * Second).tdiv ((u : Int) * Second) = ((t / u : ℕ) : ℤ) ∧
    ((t : Int) * Second).tmod ((u : Int) * Second) = ((t % u * 1000000000 : ℕ) : ℤ) := by
  have h1 : (t : Int) * Second = ((t * 1000000000 : ℕ) : ℤ) := by simp [Second]
  have h2 : (u : Int) * Second = ((u * 1000000000 : ℕ) : ℤ) := by simp [Second]
  rw [h1, h2]
  constructor
  · rw [Int.tdiv_eq_ediv (Int.natCast_nonneg _) (Int.natCast_nonneg _), ← Int.natCast_div,
      Nat.mul_div_mul_right _ _ (by norm_num)]
  · rw [Int.tmod_eq_emod (Int.natCast_nonneg _) (Int.natCast_nonneg _), ← Int.natCast_mod,
      Nat.mul_mod_mul_right]

/-- Truncated count of the whole units of `u` seconds in `t` whole seconds, as
`Hours`, `Minutes` and `Seconds` compute it. -/
theorem truncToInt_units_whole (t u : Nat) (hu : 0 < u) (hu4 : u ≤ 4096) (ht : t < 2 ^ 40) :
    truncToInt (f64 (f64 ((((t : Int) * Second).tdiv ((u : Int) * Second) : Int) : ℚ) +
      f64 (f64 ((((t : Int) * Second).tmod ((u : Int) * Second) : Int) : ℚ) /
        ((u * 1000000000 : ℕ) : ℚ)))) = ((t / u : ℕ) : ℤ) := by
  obtain ⟨h1, h2⟩ := tdiv_tmod_whole t u
  rw [h1, h2, Int.cast_natCast, Int.cast_natCast]
  have hk : t % u < u := Nat.mod_lt _ hu
  rw [f64_natCast (t % u * 1000000000) (by
    have : t % u * 1000000000 < 4096 * 1000000000 := by omega
    exact lt_trans this (by norm_num))]
  have hfrac : (((t % u * 1000000000 : ℕ) : ℚ)) / ((u * 1000000000 : ℕ) : ℚ) =
      ((t % u : ℕ) : ℚ) / (u : ℚ) := by
    have : (u : ℚ) ≠ 0 := by exact_mod_cast (Nat.pos_iff_ne_zero.mp hu)
    push_cast
    field_simp
    ring
  rw [hfrac]
  exact truncToInt_f64_units (t / u) (t % u) u
    (lt_of_le_of_lt (Nat.div_le_self _ _) ht) hk hu4

/-! ## Lemmas: decimal digits -/

theorem toDigitsCore_length_le (b : Nat) :
    ∀ (fuel n : Nat) (ds : List Char), ds.length ≤ (Nat.toDigitsCore b fuel n ds).length := by
  intro fuel
  induction fuel with
  | zero => intro n ds; simp [Nat.toDigitsCore]
  | succ f ih =>
    intro n ds
    simp only [Nat.toDigitsCore]
    split_ifs
    · simp
    · exact le_trans (by simp) (ih _ _)

theorem toDigitsCore_length_lt (fuel m : Nat) (ds : List Char) (hf : 0 < fuel) :
    ds.length + 1 ≤ (Nat.toDigitsCore 10 fuel m ds).length := by
  obtain ⟨k, rfl⟩ : ∃ k, fuel = k + 1 := ⟨fuel - 1, by omega⟩
  simp only [Nat.toDigitsCore]
  split_ifs
  · simp
  · exact le_trans (by simp) (toDigitsCore_length_le 10 _ _ _)

theorem repr_length_ge_two (n : Nat) (h : 10 ≤ n) : 2 ≤ (Nat.repr n).length := by
  obtain ⟨g, rfl⟩ : ∃ g, n = g + 1 + 1 := ⟨n - 2, by omega⟩
  have hne : ¬ ((g + 1 + 1) / 10 = 0) := by omega
  have h2 : Nat.toDigits 10 (g + 1 + 1) =
      Nat.toDigitsCore 10 (g + 1 + 1) ((g + 1 + 1) / 10) [Nat.digitChar ((g + 1 + 1) % 10)] := by
    rw [Nat.toDigits]
    conv_lhs => rw [Nat.toDigitsCore]
    simp only [if_neg hne]
  have h4 := toDigitsCore_length_lt (g + 1 + 1) ((g + 1 + 1) / 10)
    [Nat.digitChar ((g + 1 + 1) % 10)] (by omega)
  show 2 ≤ (Nat.toDigits 10 (g + 1 + 1)).asString.length
  rw [h2]
  simpa [String.length, List.asString] using h4

/-- On a natural number the verb `%02d` writes the two-digit text of the
specification. -/
theorem fmt02d_natCast (n : Nat) : fmt02d (n : Int) = twoDigits n := by
  have hn : ¬ ((n : Int) < 0) := by omega
  rw [fmt02d, if_neg hn, Int.natAbs_ofNat, twoDigits]
  split_ifs with h
  · interval_cases n <;> rfl
  · have := repr_length_ge_two n (by omega)
    rw [zeroPad, Nat.sub_eq_zero_of_le this]
    rfl

theorem fmtd_natCast (n : Nat) : fmtd (n : Int) = Nat.repr n := by
  have : ¬ ((n : Int) < 0) := by omega
  simp [fmtd, this]

/-! ## Lemmas: single statements -/

theorem rowMatches_iff (h : Host) (arg : String) (r : Task) :
    rowMatches h arg r = true ↔ h.rowid arg = some (r.id : Int) := by
  unfold rowMatches
  cases hk : h.rowid arg with
  | none => simp
  | some k => simp [eq_comm]

theorem mem_updateStart {h : Host} {s : Store} {now : Nat} {st arg : String} {r : Task}
    (hr : r ∈ (updateStart h s now st arg).rows) :
    ∃ o ∈ s.rows, r.id = o.id ∧ r.name = o.name ∧ r.end_time = o.end_time ∧
      (h.rowid arg = some (o.id : Int) → r.start_time = some now ∧ r.status = st) ∧
      (h.rowid arg ≠ some (o.id : Int) → r = o) := by
  simp only [updateStart, List.mem_map] at hr
  obtain ⟨o, ho, rfl⟩ := hr
  refine ⟨o, ho, ?_⟩
  by_cases hm : rowMatches h arg o = true
  · have := (rowMatches_iff h arg o).mp hm
    simp [hm, this]
  · have := mt (rowMatches_iff h arg o).mpr hm
    simp [hm, this]

theorem mem_updateEnd {h : Host} {s : Store} {now : Nat} {st arg : String} {r : Task}
    (hr : r ∈ (updateEnd h s now st arg).rows) :
    ∃ o ∈ s.rows, r.id = o.id ∧ r.name = o.name ∧ r.start_time = o.start_time ∧
      (h.rowid arg = some (o.id : Int) → r.end_time = some now ∧ r.status = st) ∧
      (h.rowid arg ≠ some (o.id : Int) → r = o) := by
  simp only [updateEnd, List.mem_map] at hr
  obtain ⟨o, ho, rfl⟩ := hr
  refine ⟨o, ho, ?_⟩
  by_cases hm : rowMatches h arg o = true
  · have := (rowMatches_iff h arg o).mp hm
    simp [hm, this]
  · have := mt (rowMatches_iff h arg o).mpr hm
    simp [hm, this]

theorem updateStart_ids (h : Host) (s : Store) (now : Nat) (st arg : String) :
    (updateStart h s now st arg).rows.map (fun r => r.id) = s.rows.map (fun r => r.id) := by
  simp only [updateStart, List.map_map]
  apply List.map_congr_left
  intro r _
  simp only [Function.comp]
  split_ifs <;> rfl

theorem updateEnd_ids (h : Host) (s : Store) (now : Nat) (st arg : String) :
    (updateEnd h s now st arg).rows.map (fun r => r.id) = s.rows.map (fun r => r.id) := by
  simp only [updateEnd, List.map_map]
  apply List.map_congr_left
  intro r _
  simp only [Function.comp]
  split_ifs <;> rfl

theorem mem_of_mem_ids {rows rows2 : List Task}
    (he : rows2.map (fun r => r.id) = rows.map (fun r => r.id)) {k : Nat}
    (hk : ∃ r ∈ rows, r.id = k) : ∃ r ∈ rows2, r.id = k := by
  obtain ⟨r, hr, rfl⟩ := hk
  have : r.id ∈ rows2.map (fun r => r.id) := by rw [he]; exact List.mem_map_of_mem _ hr
  obtain ⟨r2, h2, h3⟩ := List.mem_map.mp this
  exact ⟨r2, h2, h3⟩

theorem updateStart_unmatched (h : Host) (s : Store) (now : Nat) (st arg : String)
    (hn : ∀ r ∈ s.rows, h.rowid arg ≠ some (r.id : Int)) : updateStart h s now st arg = s := by
  have : (s.rows.map fun r =>
      if rowMatches h arg r then { r with start_time := some now, status := st } else r)
      = s.rows := by
    conv_rhs => rw [← List.map_id s.rows]
    apply List.map_congr_left
    intro r hr
    have := mt (rowMatches_iff h arg r).mp (hn r hr)
    simp [this]
  simp only [updateStart, this]

theorem updateEnd_unmatched (h : Host) (s : Store) (now : Nat) (st arg : String)
    (hn : ∀ r ∈ s.rows, h.rowid arg ≠ some (r.id : Int)) : updateEnd h s now st arg = s := by
  have : (s.rows.map fun r =>
      if rowMatches h arg r then { r with end_time := some now, status := st } else r)
      = s.rows := by
    conv_rhs => rw [← List.map_id s.rows]
    apply List.map_congr_left
    intro r hr
    have := mt (rowMatches_iff h arg r).mp (hn r hr)
    simp [this]
  simp only [updateEnd, this]

theorem deleteRows_unmatched (h : Host) (s : Store) (arg : String)
    (hn : ∀ r ∈ s.rows, h.rowid arg ≠ some (r.id : Int)) : deleteRows h s arg = s := by
  have : (s.rows.filter fun r => !rowMatches h arg r) = s.rows := by
    rw [List.filter_eq_self]
    intro r hr
    have := mt (rowMatches_iff h arg r).mp (hn r hr)
    simp [this]
  simp only [deleteRows, this]

theorem deleteRows_rows (h : Host) (s : Store) (arg : String) :
    (deleteRows h s arg).rows =
      s.rows.filter (fun r => decide (h.rowid arg ≠ some (r.id : Int))) := by
  simp only [deleteRows]
  apply List.filter_congr
  intro r _
  by_cases hm : rowMatches h arg r = true
  · have := (rowMatches_iff h arg r).mp hm
    simp [hm, this]
  · have := mt (rowMatches_iff h arg r).mpr hm
    simp [hm, this]

theorem forall₂_map_self {R : Task → Task → Prop} (f : Task → Task) (l : List Task)
    (hf : ∀ r ∈ l, R r (f r)) : List.Forall₂ R l (l.map f) := by
  induction l with
  | nil => exact List.Forall₂.nil
  | cons a t ih =>
    exact List.Forall₂.cons (hf a (List.mem_cons_self _ _))
      (ih (fun r hr => hf r (List.mem_cons_of_mem _ hr)))

theorem updateStart_frame (h : Host) (s : Store) (now : Nat) (arg : String) :
    List.Forall₂ (startFrame (h.rowid arg) now) s.rows
      (updateStart h s now "in-progress" arg).rows := by
  simp only [updateStart]
  apply forall₂_map_self
  intro r _
  by_cases hm : rowMatches h arg r = true
  · have := (rowMatches_iff h arg r).mp hm
    simp [startFrame, hm, this]
  · have := mt (rowMatches_iff h arg r).mpr hm
    simp [startFrame, hm, this]

theorem updateEnd_frame (h : Host) (s : Store) (now : Nat) (st arg : String) :
    List.Forall₂ (endFrame (h.rowid arg) now st) s.rows (updateEnd h s now st arg).rows := by
  simp only [updateEnd]
  apply forall₂_map_self
  intro r _
  by_cases hm : rowMatches h arg r = true
  · have := (rowMatches_iff h arg r).mp hm
    simp [endFrame, hm, this]
  · have := mt (rowMatches_iff h arg r).mpr hm
    simp [endFrame, hm, this]

/-! ## Lemmas: the calendar and the layout -/

/-- The calendar at some known dates: the epoch, the leap day of 2000, the
missing leap day of 2100, and 2024-11-05. -/
theorem civilFromDays_anchors :
    civilFromDays 0 = (1970, 1, 1) ∧ civilFromDays 11016 = (2000, 2, 29) ∧
    civilFromDays 11017 = (2000, 3, 1) ∧ civilFromDays 47540 = (2100, 2, 28) ∧
    civilFromDays 47541 = (2100, 3, 1) ∧ civilFromDays 20032 = (2024, 11, 5) ∧
    civilFromDays (-1) = (1969, 12, 31) := by
  decide

theorem civilFromDays_ranges (days : Int) :
    1 ≤ (civilFromDays days).2.1 ∧ (civilFromDays days).2.1 ≤ 12 ∧
    1 ≤ (civilFromDays days).2.2 ∧ (civilFromDays days).2.2 ≤ 31 := by
  simp only [civilFromDays]
  split_ifs <;> omega

theorem civilFromDays_year_nonneg (days : Int) (hd : 0 ≤ days) :
    0 ≤ (civilFromDays days).1 := by
  simp only [civilFromDays]
  split_ifs <;> omega

theorem civilOfSeconds_ranges (secs : Int) :
    (1 ≤ (civilOfSeconds secs).month ∧ (civilOfSeconds secs).month ≤ 12) ∧
    (1 ≤ (civilOfSeconds secs).day ∧ (civilOfSeconds secs).day ≤ 31) ∧
    (0 ≤ (civilOfSeconds secs).hour ∧ (civilOfSeconds secs).hour ≤ 23) ∧
    (0 ≤ (civilOfSeconds secs).minute ∧ (civilOfSeconds secs).minute ≤ 59) ∧
    (0 ≤ (civilOfSeconds secs).second ∧ (civilOfSeconds secs).second ≤ 59) := by
  obtain ⟨h1, h2, h3, h4⟩ := civilFromDays_ranges (secs / 86400)
  simp only [civilOfSeconds]
  refine ⟨⟨h1, h2⟩, ⟨h3, h4⟩, ?_, ?_, ?_⟩ <;> omega

theorem zeroPad_two (n : Nat) : zeroPad 2 (Nat.repr n) = twoDigits n := by
  have := fmt02d_natCast n
  have hn : ¬ ((n : Int) < 0) := by omega
  rw [fmt02d, if_neg hn, Int.natAbs_ofNat] at this
  exact this

theorem empty_append (s : String) : "" ++ s = s := by
  apply String.ext
  simp

theorem append_empty (s : String) : s ++ "" = s := by
  apply String.ext
  simp

theorem appendInt_two (x : Int) (hx : 0 ≤ x) : appendInt x 2 = twoDigits x.toNat := by
  obtain ⟨n, rfl⟩ := Int.eq_ofNat_of_zero_le hx
  have hn : ¬ ((n : Int) < 0) := by omega
  rw [appendInt, if_neg hn, Int.natAbs_ofNat, Int.toNat_ofNat, zeroPad_two, empty_append]

theorem fmt02d_nonneg (x : Int) (hx : 0 ≤ x) : fmt02d x = twoDigits x.toNat := by
  obtain ⟨n, rfl⟩ := Int.eq_ofNat_of_zero_le hx
  rw [fmt02d_natCast, Int.toNat_ofNat]

theorem formatChunks_layout (c : Civil) :
    formatChunks "2006-01-02 15:04:05".data c =
      appendInt c.year 4 ++ ("-" ++ (appendInt c.month 2 ++ ("-" ++ (appendInt c.day 2 ++
        (" " ++ (appendInt c.hour 2 ++ (":" ++ (appendInt c.minute 2 ++
          (":" ++ (appendInt c.second 2 ++ "")))))))))) := by
  rfl

/-- The layout of main.go, filled in, is the text `YYYY-MM-DD HH:MM:SS`. -/
theorem format_layout (t : Time) :
    Time.Format t "2006-01-02 15:04:05" =
      specStampText (civilOfSeconds (t.unix / 1000000000 + t.offset)) := by
  obtain ⟨⟨h1, -⟩, ⟨h2, -⟩, ⟨h3, -⟩, ⟨h4, -⟩, ⟨h5, -⟩⟩ :=
    civilOfSeconds_ranges (t.unix / 1000000000 + t.offset)
  rw [Time.Format, formatChunks_layout, specStampText,
    appendInt_two _ (by omega), appendInt_two _ (by omega), appendInt_two _ h3,
    appendInt_two _ h4, appendInt_two _ h5, appendInt, append_empty]
  simp only [String.append_assoc]

/-- What `DATE` answers is the calendar date of the reading in UTC. -/
theorem sqlDate_eq_specDate (t : Nat) : sqlDate t = specDate t := by
  have hd : (0 : Int) ≤ (t : Int) / 1000000000 / 86400 := by omega
  have hy := civilFromDays_year_nonneg _ hd
  obtain ⟨h1, -, h3, -⟩ := civilFromDays_ranges ((t : Int) / 1000000000 / 86400)
  rw [sqlDate, specDate, fmt02d_nonneg _ (by omega), fmt02d_nonneg _ (by omega), appendInt,
    if_neg (by omega), empty_append]
  simp only [civilOfSeconds]
  have hnat : (civilFromDays ((t : Int) / 1000000000 / 86400)).1.natAbs =
      (civilFromDays ((t : Int) / 1000000000 / 86400)).1.toNat := by omega
  rw [hnat]

/-! ## Lemmas: numeric affinity on sample texts -/

theorem numLit_value_one_point_zero :
    NumLit.value { neg := false, whole := ['1'], point := true, frac := ['0'], exp := none } = 1 := by
  have hd : digitsValue (['1'] ++ ['0']) = 10 := by decide
  simp only [NumLit.value, hd]
  norm_num

theorem numLit_value_one_e_zero :
    NumLit.value { neg := false, whole := ['1'], point := false, frac := [],
                   exp := some (false, ['0']) } = 1 := by
  have hd : digitsValue (['1'] ++ []) = 1 := by decide
  have he : digitsValue ['0'] = 0 := by decide
  simp only [NumLit.value, hd, he]
  norm_num

theorem f64_one : f64 1 = 1 := by
  have := f64_natCast 1 (by norm_num)
  simpa using this

theorem numericRowid_one_point_zero : numericRowid "1.0" = some 1 := by
  have hread : readNumLit "1.0".data =
      some { neg := false, whole := ['1'], point := true, frac := ['0'], exp := none } := by
    decide
  simp only [numericRowid, hread, numLit_value_one_point_zero, f64_one]
  decide

theorem numericRowid_one_e_zero : numericRowid "1e0" = some 1 := by
  have hread : readNumLit "1e0".data =
      some { neg := false, whole := ['1'], point := false, frac := [],
             exp := some (false, ['0']) } := by
    decide
  simp only [numericRowid, hread, numLit_value_one_e_zero, f64_one]
  decide

/-! ## Lemmas: the listing -/

theorem whereHolds_listQuery (sf df : String) (r : Task) :
    whereHolds (listQuery sf df).1 (listQuery sf df).2 r = true ↔
      SpecSelected (supplied sf) (supplied df) r := by
  unfold listQuery supplied SpecSelected
  by_cases hs : sf = "" <;> by_cases hd : df = "" <;>
    simp [hs, hd, whereHolds, Cond.holds, sqlDate_eq_specDate]
  · cases hst : r.start_time <;> simp
  · cases hst : r.start_time <;> simp

theorem formatTime_scan (h : Host) (t : Option Nat) :
    formatTime (scanTime h t).Time = specStamp h t := by
  cases t with
  | none => simp [scanTime, formatTime, Time.IsZero, specStamp]
  | some a =>
    have hz : ¬ ((a : Int) = zeroTime.unix) := by
      simp only [zeroTime]; omega
    simp only [scanTime, formatTime, Time.IsZero, specStamp, decide_eq_true_eq, if_neg hz,
      format_layout]

theorem printTask_eq (h : Host) (r : Task) : printTask h r = specLines h r := by
  unfold printTask specLines
  simp only [formatTime_scan, fmtd_natCast]
  have : (if ((scanTime h r.start_time).Valid && (scanTime h r.end_time).Valid) = true then
        formatDuration (Time.Sub (scanTime h r.end_time).Time (scanTime h r.start_time).Time)
      else if (scanTime h r.start_time).Valid = true then "in progress" else "not started")
      = specDuration r := by
    unfold specDuration
    cases r.start_time <;> cases r.end_time <;> simp [scanTime, Time.Sub]
  rw [this]

/-! ## Lemmas: runs -/

theorem dispatch_seq_le (h : Host) (s : Store) (c : Call) : s.seq ≤ (dispatch h s c).db.seq := by
  unfold dispatch
  cases c.cmd <;>
    simp only [addTask, listTasks, startTask, stopTask, deleteTask, completeTask, saveTasks,
      updateStart, updateEnd, deleteRows, le_refl]
  split_ifs
  · exact le_refl _
  · simp only [insertTask, newRowid]; omega

theorem dispatch_created (h : Host) (s : Store) (c : Call) :
    ((dispatch h s c).db.rows.drop s.rows.length).map (fun r => r.id) =
      if c.cmd = Cmd.add ∧ c.ctx.First ≠ "" then [newRowid s] else [] := by
  unfold dispatch
  cases hc : c.cmd <;>
    simp [addTask, listTasks, startTask, stopTask, deleteTask, completeTask, saveTasks,
      updateStart, updateEnd, deleteRows]
  · split_ifs with h1
    · simp
    · simp [insertTask]
  · exact List.length_filter_le _ _

theorem dispatch_add_seq (h : Host) (s : Store) (c : Call) (hc : c.cmd = Cmd.add)
    (hn : c.ctx.First ≠ "") : (dispatch h s c).db.seq = newRowid s := by
  simp [dispatch, hc, addTask, hn, insertTask]

theorem createdIds_above (h : Host) :
    ∀ (calls : List Call) (s : Store),
      (createdIds h s calls).Pairwise (fun a b => a < b) ∧
        ∀ i ∈ createdIds h s calls, s.seq < i := by
  intro calls
  induction calls with
  | nil => intro s; simp [createdIds]
  | cons c cs ih =>
    intro s
    obtain ⟨ihp, iha⟩ := ih (dispatch h s c).db
    have hseq := dispatch_seq_le h s c
    rw [createdIds, dispatch_created]
    by_cases hadd : c.cmd = Cmd.add ∧ c.ctx.First ≠ ""
    · rw [if_pos hadd]
      have hnew := dispatch_add_seq h s c hadd.1 hadd.2
      have hgt : s.seq < newRowid s := by simp only [newRowid]; omega
      constructor
      · simp only [List.singleton_append, List.pairwise_cons]
        exact ⟨fun i hi => by have := iha i hi; omega, ihp⟩
      · intro i hi
        simp only [List.singleton_append, List.mem_cons] at hi
        rcases hi with rfl | hi
        · exact hgt
        · have := iha i hi; omega
    · rw [if_neg hadd]
      exact ⟨by simpa using ihp, fun i hi => by have := iha i (by simpa using hi); omega⟩

theorem createdIds_length (h : Host) :
    ∀ (calls : List Call) (s : Store),
      (createdIds h s calls).length =
        (calls.filter (fun c => decide (c.cmd = Cmd.add ∧ c.ctx.First ≠ ""))).length := by
  intro calls
  induction calls with
  | nil => intro s; simp [createdIds]
  | cons c cs ih =>
    intro s
    rw [createdIds, dispatch_created, List.length_append, ih, List.filter_cons]
    by_cases hadd : c.cmd = Cmd.add ∧ c.ctx.First ≠ ""
    · simp [hadd]; omega
    · simp [hadd]

theorem dispatch_ids_subset (h : Host) (s : Store) (c : Call) (hc : c.cmd ≠ Cmd.add) :
    ∀ r ∈ (dispatch h s c).db.rows, ∃ o ∈ s.rows, o.id = r.id := by
  intro r hr
  unfold dispatch at hr
  revert hr
  cases hcmd : c.cmd <;>
    simp only [listTasks, startTask, stopTask, deleteTask, completeTask, saveTasks] <;> intro hr
  · exact absurd hcmd hc
  · exact ⟨r, hr, rfl⟩
  · simp only [updateStart, List.mem_map] at hr
    obtain ⟨o, ho, rfl⟩ := hr
    exact ⟨o, ho, by split_ifs <;> rfl⟩
  · simp only [updateEnd, List.mem_map] at hr
    obtain ⟨o, ho, rfl⟩ := hr
    exact ⟨o, ho, by split_ifs <;> rfl⟩
  · simp only [deleteRows, List.mem_filter] at hr
    exact ⟨r, hr.1, rfl⟩
  · simp only [updateEnd, List.mem_map] at hr
    obtain ⟨o, ho, rfl⟩ := hr
    exact ⟨o, ho, by split_ifs <;> rfl⟩
  · exact ⟨r, hr, rfl⟩

theorem run_ids_subset (h : Host) :
    ∀ (calls : List Call) (s : Store), (∀ x ∈ calls, x.cmd ≠ Cmd.add) →
      ∀ r ∈ (run h s calls).rows, ∃ o ∈ s.rows, o.id = r.id := by
  intro calls
  induction calls with
  | nil => intro s _ r hr; exact ⟨r, hr, rfl⟩
  | cons c cs ih =>
    intro s hall r hr
    obtain ⟨o, ho, hid⟩ := ih (dispatch h s c).db
      (fun x hx => hall x (List.mem_cons_of_mem _ hx)) r hr
    obtain ⟨o2, ho2, hid2⟩ := dispatch_ids_subset h s c (hall c (List.mem_cons_self _ _)) o ho
    exact ⟨o2, ho2, by rw [hid2, hid]⟩

theorem startsBefore_dispatch (h : Host) (k t : Nat) (s : Store) (c : Call)
    (hs : startsBefore k t s) (ht : t ≤ c.now) : startsBefore k c.now (dispatch h s c).db := by
  have hmono : startsBefore k c.now s := fun r hr hk a ha => le_trans (hs r hr hk a ha) ht
  unfold dispatch
  cases c.cmd <;> simp only [addTask, listTasks, startTask, stopTask, deleteTask, completeTask,
    saveTasks]
  · split_ifs
    · exact hmono
    · intro r hr hk a ha
      simp only [insertTask, List.mem_append, List.mem_singleton] at hr
      rcases hr with hr | rfl
      · exact hmono r hr hk a ha
      · simp at ha
  · exact hmono
  · intro r hr hk a ha
    obtain ⟨o, ho, hid, -, -, hm, hn⟩ := mem_updateStart hr
    by_cases hk2 : h.rowid c.ctx.First = some (o.id : Int)
    · have := (hm hk2).1
      rw [this] at ha
      simp at ha
      omega
    · have := hn hk2
      subst this
      exact hmono r ho hk a ha
  · intro r hr hk a ha
    obtain ⟨o, ho, hid, -, hst, -, -⟩ := mem_updateEnd hr
    exact hmono o ho (hid ▸ hk) a (hst ▸ ha)
  · intro r hr hk a ha
    simp only [deleteRows, List.mem_filter] at hr
    exact hmono r hr.1 hk a ha
  · intro r hr hk a ha
    obtain ⟨o, ho, hid, -, hst, -, -⟩ := mem_updateEnd hr
    exact hmono o ho (hid ▸ hk) a (hst ▸ ha)
  · exact hmono

theorem startsBefore_run (h : Host) (k : Nat) :
    ∀ (calls : List Call) (t : Nat) (s : Store), startsBefore k t s →
      clockMonotone t calls = true → startsBefore k (lastClock t calls) (run h s calls) := by
  intro calls
  induction calls with
  | nil => intro t s hs _; exact hs
  | cons c cs ih =>
    intro t s hs hc
    simp only [clockMonotone, Bool.and_eq_true, decide_eq_true_eq] at hc
    exact ih c.now _ (startsBefore_dispatch h k t s c hs hc.1) hc.2

theorem timesOrdered_mono {t u : Nat} {s : Store} (hs : timesOrdered t s) (htu : t ≤ u) :
    timesOrdered u s := fun r hr =>
  ⟨fun a ha => le_trans ((hs r hr).1 a ha) htu, fun b hb => le_trans ((hs r hr).2.1 b hb) htu,
    (hs r hr).2.2⟩

theorem timesOrdered_updateEnd (h : Host) (t : Nat) (s : Store) (st arg : String)
    (hs : timesOrdered t s) : timesOrdered t (updateEnd h s t st arg) := by
  intro r hr
  obtain ⟨o, ho, -, -, hst, hm, hn⟩ := mem_updateEnd hr
  by_cases hk : h.rowid arg = some (o.id : Int)
  · have he := (hm hk).1
    refine ⟨fun a ha => (hs o ho).1 a (hst ▸ ha), fun b hb => ?_, fun a b ha hb => ?_⟩
    · rw [he] at hb; simp at hb; omega
    · rw [he] at hb; simp at hb
      have := (hs o ho).1 a (hst ▸ ha)
      omega
  · rw [hn hk]; exact hs o ho

theorem timesOrdered_dispatch (h : Host) (t : Nat) (s : Store) (c : Call)
    (hs : timesOrdered t s) (ht : t ≤ c.now)
    (hg : c.cmd = Cmd.start →
      ∀ r ∈ s.rows, rowMatches h c.ctx.First r = true → r.end_time = none) :
    timesOrdered c.now (dispatch h s c).db := by
  have hmono : timesOrdered c.now s := timesOrdered_mono hs ht
  unfold dispatch
  cases hcmd : c.cmd <;> simp only [addTask, listTasks, startTask, stopTask, deleteTask,
    completeTask, saveTasks]
  · split_ifs
    · exact hmono
    · intro r hr
      simp only [insertTask, List.mem_append, List.mem_singleton] at hr
      rcases hr with hr | rfl
      · exact hmono r hr
      · simp
  · exact hmono
  · intro r hr
    obtain ⟨o, ho, -, -, hen, hm, hn⟩ := mem_updateStart hr
    by_cases hk : h.rowid c.ctx.First = some (o.id : Int)
    · have hst := (hm hk).1
      have hend : r.end_time = none := by
        rw [hen]; exact hg hcmd o ho ((rowMatches_iff h _ o).mpr hk)
      refine ⟨fun a ha => ?_, fun b hb => ?_, fun a b _ hb => ?_⟩
      · rw [hst] at ha; simp at ha; omega
      · rw [hend] at hb; simp at hb
      · rw [hend] at hb; simp at hb
    · rw [hn hk]; exact hmono o ho
  · exact timesOrdered_updateEnd h c.now s _ _ hmono
  · intro r hr
    simp only [deleteRows, List.mem_filter] at hr
    exact hmono r hr.1
  · exact timesOrdered_updateEnd h c.now s _ _ hmono
  · exact hmono

theorem timesOrdered_run (h : Host) :
    ∀ (calls : List Call) (t : Nat) (s : Store), timesOrdered t s →
      clockMonotone t calls = true → startsUnended h s calls = true →
      timesOrdered (lastClock t calls) (run h s calls) := by
  intro calls
  induction calls with
  | nil => intro t s hs _ _; exact hs
  | cons c cs ih =>
    intro t s hs hc hg
    simp only [clockMonotone, Bool.and_eq_true, decide_eq_true_eq] at hc
    simp only [startsUnended, Bool.and_eq_true, Bool.or_eq_true, decide_eq_true_eq,
      List.all_eq_true, Bool.not_eq_true', Option.isNone_iff_eq_none] at hg
    refine ih c.now _ (timesOrdered_dispatch h t s c hs hc.1 ?_) hc.2 hg.2
    intro hstart r hr hm
    rcases hg.1 with hne | hall
    · exact absurd hstart hne
    · rcases hall r hr with hf | hnone
      · rw [hm] at hf; simp at hf
      · exact hnone

/-! ## The claims -/

/-- C1: `formatDuration` renders a duration of `t` whole seconds, for every
`t ≥ 0` that a `time.Duration` can hold, as `HH:MM:SS` where `HH = t / 3600`,
`MM = (t / 60) mod 60` and `SS = t mod 60`, each written in decimal and
zero-padded to at least two digits (`specHMS`). -/
theorem formatDuration_whole_seconds (t : Nat) (h : (t : Int) * Second ≤ maxDuration) :
    formatDuration ((t : Int) * Second) = specHMS t := by
  have ht : t < 2 ^ 40 := by
    simp only [Second, maxDuration] at h
    omega
  have hH := truncToInt_units_whole t 3600 (by norm_num) (by norm_num) ht
  have hM := truncToInt_units_whole t 60 (by norm_num) (by norm_num) ht
  have hS := truncToInt_units_whole t 1 (by norm_num) (by norm_num) ht
  have eH : Duration.Hours ((t : Int) * Second) =
      f64 (f64 ((((t : Int) * Second).tdiv (((3600 : ℕ) : Int) * Second) : Int) : ℚ) +
        f64 (f64 ((((t : Int) * Second).tmod (((3600 : ℕ) : Int) * Second) : Int) : ℚ) /
          ((3600 * 1000000000 : ℕ) : ℚ))) := by
    simp only [Duration.Hours, Hour, Minute]
    rw [show (60 : Int) * (60 * Second) = 3600 * Second by ring]
    norm_num
  have eM : Duration.Minutes ((t : Int) * Second) =
      f64 (f64 ((((t : Int) * Second).tdiv (((60 : ℕ) : Int) * Second) : Int) : ℚ) +
        f64 (f64 ((((t : Int) * Second).tmod (((60 : ℕ) : Int) * Second) : Int) : ℚ) /
          ((60 * 1000000000 : ℕ) : ℚ))) := by
    simp only [Duration.Minutes, Minute]
    norm_num
  have eS : Duration.Seconds ((t : Int) * Second) =
      f64 (f64 ((((t : Int) * Second).tdiv (((1 : ℕ) : Int) * Second) : Int) : ℚ) +
        f64 (f64 ((((t : Int) * Second).tmod (((1 : ℕ) : Int) * Second) : Int) : ℚ) /
          ((1 * 1000000000 : ℕ) : ℚ))) := by
    simp only [Duration.Seconds]
    norm_num
  rw [formatDuration, eH, eM, eS, hH, hM, hS]
  simp only [Nat.div_one]
  rw [Int.tmod_eq_emod (Int.natCast_nonneg _) (by norm_num),
    Int.tmod_eq_emod (Int.natCast_nonneg _) (by norm_num)]
  have e1 : ((t / 60 : ℕ) : ℤ) % 60 = ((t / 60 % 60 : ℕ) : ℤ) := by push_cast; rfl
  have e2 : ((t : ℕ) : ℤ) % 60 = ((t % 60 : ℕ) : ℤ) := by push_cast; rfl
  rw [e1, e2, fmt02d_natCast, fmt02d_natCast, fmt02d_natCast, specHMS]

/-- C1 at the input of the specification: a duration of 3725 seconds formats
as `01:02:05`. -/
theorem formatDuration_3725_seconds :
    ((3725 : Nat) : Int) * Second ≤ maxDuration ∧
      formatDuration (((3725 : Nat) : Int) * Second) = "01:02:05" :=
  ⟨by decide, (formatDuration_whole_seconds 3725 (by decide)).trans (by decide)⟩

/-- C2: for every table and every name, `add` fails if and only if the name
is empty; when it fails the table is unchanged, and when it succeeds the table
is the old one followed by exactly one new row, which carries the given name,
the status `pending` and no `start_time` and no `end_time`. -/
theorem addTask_fails_iff_name_empty (s : Store) (c : Context) :
    ((addTask s c).err ≠ none ↔ c.First = "") ∧
    (c.First = "" → (addTask s c).db = s) ∧
    (c.First ≠ "" → ∃ id, (addTask s c).db.rows =
      s.rows ++ [{ id := id, name := c.First, start_time := none, end_time := none,
                   status := "pending" }]) := by
  refine ⟨?_, ?_, ?_⟩
  · by_cases hn : c.First = "" <;> simp [addTask, hn]
  · intro hn; simp [addTask, hn]
  · intro hn; exact ⟨newRowid s, by simp [addTask, hn, insertTask]⟩

/-- C3: in every sequence of runs that begins from the empty table, the
identifiers assigned by the adds, taken in order, are strictly increasing (each
one is greater than every identifier assigned before it, whether or not that
task was deleted since), so no two of them are equal; and every add with a
non-empty name assigns one. -/
theorem add_ids_strictly_increasing (h : Host) (calls : List Call) :
    (createdIds h (createTable none) calls).Pairwise (fun a b => a < b) ∧
    (createdIds h (createTable none) calls).Nodup ∧
    (createdIds h (createTable none) calls).length =
      (calls.filter (fun c => decide (c.cmd = Cmd.add ∧ c.ctx.First ≠ ""))).length :=
  ⟨(createdIds_above h calls _).1,
    ((createdIds_above h calls _).1).imp (fun hab => Nat.ne_of_lt hab),
    createdIds_length h calls _⟩

/-- C4: for every table that holds a task with identifier `id`: after
`start id` at the reading `now1` the task is there with `start_time = now1` and
the status `in-progress`; after a `stop id` that follows at a reading
`now2 ≥ now1` the task is there with the status `stopped` and both timestamps
set, `start_time ≤ end_time`; and when other runs come in between, under a
clock that never goes backwards, every row with that identifier has the status
`stopped`, `end_time = now2` and no `start_time` after it. -/
theorem start_then_stop (h : Host) (s : Store) (c1 : Context) (now1 id : Nat)
    (hid : h.rowid c1.First = some (id : Int)) (hex : ∃ r ∈ s.rows, r.id = id) :
    (startTask h s now1 c1).err = none ∧
    (∃ r ∈ (startTask h s now1 c1).db.rows, r.id = id) ∧
    (∀ r ∈ (startTask h s now1 c1).db.rows, r.id = id →
      r.start_time = some now1 ∧ r.status = "in-progress") ∧
    (∀ (c2 : Context) (now2 : Nat), now1 ≤ now2 → h.rowid c2.First = some (id : Int) →
      (stopTask h (startTask h s now1 c1).db now2 c2).err = none ∧
      (∃ r ∈ (stopTask h (startTask h s now1 c1).db now2 c2).db.rows, r.id = id) ∧
      ∀ r ∈ (stopTask h (startTask h s now1 c1).db now2 c2).db.rows, r.id = id →
        r.status = "stopped" ∧
          ∃ a b, r.start_time = some a ∧ r.end_time = some b ∧ a ≤ b) ∧
    (∀ (mid : List Call) (c2 : Context) (now2 : Nat), clockMonotone now1 mid = true →
      lastClock now1 mid ≤ now2 → h.rowid c2.First = some (id : Int) →
      ∀ r ∈ (stopTask h (run h (startTask h s now1 c1).db mid) now2 c2).db.rows, r.id = id →
        r.status = "stopped" ∧ r.end_time = some now2 ∧
          ∀ a, r.start_time = some a → a ≤ now2) := by
  have hstart : ∀ r ∈ (startTask h s now1 c1).db.rows, r.id = id →
      r.start_time = some now1 ∧ r.status = "in-progress" := by
    intro r hr hk
    obtain ⟨o, ho, hio, -, -, hm, -⟩ := mem_updateStart hr
    exact hm (by rw [hid, ← hio, hk])
  have hex1 : ∃ r ∈ (startTask h s now1 c1).db.rows, r.id = id :=
    mem_of_mem_ids (updateStart_ids h s now1 _ _) hex
  refine ⟨rfl, hex1, hstart, ?_, ?_⟩
  · intro c2 now2 hle hid2
    refine ⟨rfl, mem_of_mem_ids (updateEnd_ids h _ now2 _ _) hex1, ?_⟩
    intro r hr hk
    obtain ⟨o, ho, hio, -, hst, hm, -⟩ := mem_updateEnd hr
    have hm2 := hm (by rw [hid2, ← hio, hk])
    have ho2 := hstart o ho (by rw [← hio, hk])
    exact ⟨hm2.2, now1, now2, by rw [hst, ho2.1], hm2.1, hle⟩
  · intro mid c2 now2 hmono hlast hid2 r hr hk
    have hinv : startsBefore id now1 (startTask h s now1 c1).db := by
      intro r hr hk a ha
      have := (hstart r hr hk).1
      rw [this] at ha
      simp at ha
      omega
    have hrun := startsBefore_run h id mid now1 _ hinv hmono
    obtain ⟨o, ho, hio, -, hst, hm, -⟩ := mem_updateEnd hr
    have hm2 := hm (by rw [hid2, ← hio, hk])
    refine ⟨hm2.2, hm2.1, ?_⟩
    intro a ha
    exact le_trans (hrun o ho (by rw [← hio, hk]) a (by rw [← hst, ha])) hlast

/-- C4 on the sample table: task 1 is started at reading 5. -/
theorem start_then_stop_sample :
    (utcHost.rowid (argContext "1").First = some ((1 : Nat) : Int) ∧
      ∃ r ∈ sampleTable.rows, r.id = 1) ∧
    (startTask utcHost sampleTable 5 (argContext "1")).err = none ∧
    (∃ r ∈ (startTask utcHost sampleTable 5 (argContext "1")).db.rows, r.id = 1) ∧
    (∀ r ∈ (startTask utcHost sampleTable 5 (argContext "1")).db.rows, r.id = 1 →
      r.start_time = some 5 ∧ r.status = "in-progress") :=
  have hyp : utcHost.rowid (argContext "1").First = some ((1 : Nat) : Int) := by decide
  have hex : ∃ r ∈ sampleTable.rows, r.id = 1 := by decide
  have key := start_then_stop utcHost sampleTable (argContext "1") 5 1 hyp hex
  ⟨⟨hyp, hex⟩, key.1, key.2.1, key.2.2.1⟩

/-- C5, as the code has it: for every table, the rows `list` runs over are
exactly the rows of the table that satisfy the conjunction of the supplied
filters, each as often and in the order the table has it, where a flag given
with the empty text counts as not supplied: with a non-empty status filter the
rows whose stored status equals it, with a non-empty date filter only rows
whose `start_time` is set and falls on that calendar date in UTC (`specDate`),
with no filter every row. -/
theorem listTasks_selects (h : Host) (s : Store) (c : Context) :
    (∀ r, r ∈ listed h s c ↔
      r ∈ s.rows ∧ SpecSelected (supplied (c.flag "status")) (supplied (c.flag "date")) r) ∧
    (listed h s c).Sublist s.rows ∧
    (c.flag "status" = "" → c.flag "date" = "" → listed h s c = s.rows) ∧
    (c.flag "status" ≠ "" → c.flag "date" = "" →
      listed h s c = s.rows.filter (fun r => decide (r.status = c.flag "status"))) ∧
    (c.flag "status" = "" → c.flag "date" ≠ "" →
      listed h s c = s.rows.filter (fun r =>
        match r.start_time with
        | some t => decide (specDate t = c.flag "date")
        | none => false)) := by
  refine ⟨?_, ?_, ?_, ?_, ?_⟩
  · intro r
    simp only [listed, selectTasks, List.mem_filter, whereHolds_listQuery]
  · exact List.filter_sublist _
  · intro hs hd
    simp [listed, selectTasks, listQuery, hs, hd, whereHolds]
  · intro hs hd
    simp only [listed, selectTasks, listQuery, hs, hd, whereHolds, Cond.holds, ne_eq,
      not_false_eq_true, not_true_eq_false, if_true, if_false, List.nil_append, Bool.and_true]
    apply List.filter_congr
    intro r _
    rfl
  · intro hs hd
    simp only [listed, selectTasks, listQuery, hs, hd, whereHolds, Cond.holds, ne_eq,
      not_false_eq_true, not_true_eq_false, if_true, if_false, List.nil_append, Bool.and_true]
    apply List.filter_congr
    intro r _
    cases r.start_time with
    | none => rfl
    | some t =>
      simp only [sqlDate_eq_specDate]
      rfl

/-- C5 fails as stated. With `--status ""` on a table whose one task is
`pending`, `list` shows that task, although no stored status equals the empty
text. And on a host five hours west of UTC, a task started at 20:00:00 local
time on 2024-11-04 is printed with that start but is listed under
`--date 2024-11-05` and not under `--date 2024-11-04`: `DATE` takes the date in
UTC. -/
theorem empty_status_flag_lists_every_row :
    (listed utcHost sampleTable (flagContext "status" "") = sampleTable.rows ∧
      sampleTable.rows.filter (fun r => decide (r.status = "")) = [] ∧
      listed utcHost sampleTable (flagContext "status" "") ≠
        sampleTable.rows.filter (fun r => decide (r.status = ""))) ∧
    (printTask westHost
        { id := 1, name := "write report", start_time := some 1730768400000000000,
          end_time := none, status := "in-progress" } =
        "1: write report [in-progress]\n   Duration: in progress Start: 2024-11-04 20:00:00 End: N/A\n" ∧
      listed westHost eveningTable (flagContext "date" "2024-11-04") = [] ∧
      listed westHost eveningTable (flagContext "date" "2024-11-05") = eveningTable.rows) := by
  decide

/-- C6: for every table and identifier argument, `delete` succeeds; afterwards
no row with that identifier remains and the other rows are as they were, in
their order; no later `list`, under any filter and after any further runs
that are not adds, shows a row with that identifier; and when no row has the
identifier the table is left unchanged. -/
theorem deleteTask_removes (h : Host) (s : Store) (c : Context) :
    (deleteTask h s c).err = none ∧
    (deleteTask h s c).db.seq = s.seq ∧
    (deleteTask h s c).db.rows =
      s.rows.filter (fun r => decide (h.rowid c.First ≠ some (r.id : Int))) ∧
    (∀ r ∈ (deleteTask h s c).db.rows, h.rowid c.First ≠ some (r.id : Int)) ∧
    (∀ (calls : List Call) (c2 : Context), (∀ x ∈ calls, x.cmd ≠ Cmd.add) →
      ∀ r ∈ listed h (run h (deleteTask h s c).db calls) c2,
        h.rowid c.First ≠ some (r.id : Int)) ∧
    ((∀ r ∈ s.rows, h.rowid c.First ≠ some (r.id : Int)) → (deleteTask h s c).db = s) := by
  have hgone : ∀ r ∈ (deleteTask h s c).db.rows, h.rowid c.First ≠ some (r.id : Int) := by
    intro r hr
    simp only [deleteTask, deleteRows_rows, List.mem_filter, decide_eq_true_eq] at hr
    exact hr.2
  refine ⟨rfl, rfl, deleteRows_rows h s _, hgone, ?_, ?_⟩
  · intro calls c2 hall r hr
    have hr2 : r ∈ (run h (deleteTask h s c).db calls).rows := by
      simp only [listed, selectTasks, List.mem_filter] at hr
      exact hr.1
    obtain ⟨o, ho, hid⟩ := run_ids_subset h calls _ hall r hr2
    rw [← hid]
    exact hgone o ho
  · intro hn
    exact deleteRows_unmatched h s _ hn

/-- C7, as the code has it: for every table and every identifier argument,
parseable as an integer or not, `start`, `stop`, `delete` and `complete` return
no error; they leave the table unchanged whenever the engine's numeric reading
of the argument is not the identifier of a row of the table; and what they do
depends on the argument only through that reading, so that an argument the
engine reads as `1` acts on task 1 as `1` itself does. -/
theorem id_argument_never_rejected (h : Host) (s : Store) (now : Nat) (c : Context) :
    ((startTask h s now c).err = none ∧ (stopTask h s now c).err = none ∧
      (deleteTask h s c).err = none ∧ (completeTask h s now c).err = none) ∧
    ((∀ r ∈ s.rows, h.rowid c.First ≠ some (r.id : Int)) →
      (startTask h s now c).db = s ∧ (stopTask h s now c).db = s ∧
        (deleteTask h s c).db = s ∧ (completeTask h s now c).db = s) ∧
    (∀ c2 : Context, h.rowid c2.First = h.rowid c.First →
      (startTask h s now c).db = (startTask h s now c2).db ∧
        (stopTask h s now c).db = (stopTask h s now c2).db ∧
        (deleteTask h s c).db = (deleteTask h s c2).db ∧
        (completeTask h s now c).db = (completeTask h s now c2).db) := by
  refine ⟨⟨rfl, rfl, rfl, rfl⟩, ?_, ?_⟩
  · intro hno
    exact ⟨updateStart_unmatched h s now _ _ hno, updateEnd_unmatched h s now _ _ hno,
      deleteRows_unmatched h s _ hno, updateEnd_unmatched h s now _ _ hno⟩
  · intro c2 hc
    simp only [startTask, stopTask, deleteTask, completeTask, updateStart, updateEnd,
      deleteRows, rowMatches, hc, and_self]

/-- C7 fails as stated. With the identifier argument `abc`, and with no
argument at all (the empty text), `start`, `stop`, `delete` and `complete`
return no error and print their confirmation. With `1.0`, ` 1` and `1e0`, none
of which is an integer for `strconv.Atoi`, they return no error either and the
table is changed: the engine reads each of them as `1`, and task 1 is deleted,
started, completed. -/
theorem nonnumeric_id_reports_success :
    ((startTask utcHost sampleTable 7 (argContext "abc")).err = none ∧
      (startTask utcHost sampleTable 7 (argContext "abc")).out = "Task started: abc\n" ∧
      (stopTask utcHost sampleTable 7 (argContext "abc")).err = none ∧
      (stopTask utcHost sampleTable 7 (argContext "abc")).out = "Task stopped: abc\n" ∧
      (deleteTask utcHost sampleTable (argContext "abc")).err = none ∧
      (deleteTask utcHost sampleTable (argContext "abc")).out = "Task deleted: abc\n" ∧
      (completeTask utcHost sampleTable 7 (argContext "abc")).err = none ∧
      (completeTask utcHost sampleTable 7 (argContext "abc")).out = "Task completed: abc\n" ∧
      (startTask utcHost sampleTable 7 { args := [], flags := [] }).err = none ∧
      (startTask utcHost sampleTable 7 { args := [], flags := [] }).out = "Task started: \n") ∧
    ((deleteTask utcHost sampleTable (argContext "1.0")).err = none ∧
      (deleteTask utcHost sampleTable (argContext "1.0")).db.rows = [] ∧
      (startTask utcHost sampleTable 7 (argContext " 1")).db.rows =
        [{ id := 1, name := "write report", start_time := some 7, end_time := none,
           status := "in-progress" }] ∧
      (completeTask utcHost sampleTable 7 (argContext "1e0")).db.rows =
        [{ id := 1, name := "write report", start_time := none, end_time := some 7,
           status := "completed" }]) ∧
    (parsesAsInteger "abc" = false ∧ parsesAsInteger "" = false ∧
      parsesAsInteger "1.0" = false ∧ parsesAsInteger " 1" = false ∧
      parsesAsInteger "1e0" = false ∧ parsesAsInteger "1" = true) := by
  refine ⟨by decide, ⟨rfl, ?_, by decide, ?_⟩, by decide⟩
  · simp [deleteTask, deleteRows, rowMatches, argContext, Context.First, utcHost,
      numericRowid_one_point_zero, sampleTable]
  · simp [completeTask, updateEnd, rowMatches, argContext, Context.First, utcHost,
      numericRowid_one_e_zero, sampleTable]

/-- C8, as the code has it: in every table reached from the empty table by a
sequence of runs under a clock that never goes backwards, in which no `start`
is applied to a task whose `end_time` is already set, every task that has both
timestamps set satisfies `start_time ≤ end_time`. -/
theorem start_before_end_unless_restarted (h : Host) (calls : List Call)
    (hclock : clockMonotone 0 calls = true)
    (hguard : startsUnended h (createTable none) calls = true) :
    ∀ r ∈ (run h (createTable none) calls).rows, ∀ a b,
      r.start_time = some a → r.end_time = some b → a ≤ b := by
  have h0 : timesOrdered 0 (createTable none) := by
    intro r hr; simp [createTable] at hr
  intro r hr
  exact (timesOrdered_run h calls 0 _ h0 hclock hguard r hr).2.2

/-- C8 on a run that adds a task, starts it at reading 5 and completes it at
reading 10. -/
theorem start_before_end_ordered_trace :
    (clockMonotone 0 orderedTrace = true ∧
      startsUnended utcHost (createTable none) orderedTrace = true) ∧
    (run utcHost (createTable none) orderedTrace).rows =
      [{ id := 1, name := "write report", start_time := some 5, end_time := some 10,
         status := "completed" }] ∧
    ∀ r ∈ (run utcHost (createTable none) orderedTrace).rows, ∀ a b,
      r.start_time = some a → r.end_time = some b → a ≤ b :=
  ⟨⟨by decide, by decide⟩, by decide,
    start_before_end_unless_restarted utcHost orderedTrace (by decide) (by decide)⟩

/-- C8 fails as stated: from the empty table, under a clock that never goes
backwards, `add`, then `stop 1` at reading 5, then `start 1` at reading 10
leave task 1 with `start_time = 10` and `end_time = 5`. -/
theorem start_after_stop_breaks_order :
    clockMonotone 0 restartTrace = true ∧
    (run utcHost (createTable none) restartTrace).rows =
      [{ id := 1, name := "write report", start_time := some 10, end_time := some 5,
         status := "in-progress" }] ∧
    ¬ (∀ r ∈ (run utcHost (createTable none) restartTrace).rows, ∀ a b,
        r.start_time = some a → r.end_time = some b → a ≤ b) := by
  refine ⟨by decide, by decide, ?_⟩
  intro hall
  have := hall ⟨1, "write report", some 10, some 5, "in-progress"⟩ (by decide) 10 5 rfl rfl
  omega

/-- C9: for every listed task, `list` prints the line `<id>: <name> [<status>]`
and then a line whose duration field is `formatDuration(end_time - start_time)`
when both timestamps are present, `in progress` when only `start_time` is, and
`not started` in every other case, and whose `Start` and `End` fields are the
timestamp formatted as `YYYY-MM-DD HH:MM:SS` when it is present and `N/A` when
it is absent (`specLines`). The layout `2006-01-02 15:04:05` of `formatTime`
gives that text for every time but the zero time; month, day, hour, minute and
second are in range, so each takes exactly two digits; and the difference is
the exact one whenever a `time.Duration` can hold it. -/
theorem listTasks_output (h : Host) (s : Store) (c : Context) :
    (listTasks h s c).out = String.join ((listed h s c).map (specLines h)) ∧
    (∀ r, printTask h r = specLines h r) ∧
    (∀ t : Time, formatTime t =
      if t.unix = zeroTime.unix then "N/A"
      else specStampText (civilOfSeconds (t.unix / 1000000000 + t.offset))) ∧
    (∀ secs : Int,
      (1 ≤ (civilOfSeconds secs).month ∧ (civilOfSeconds secs).month ≤ 12) ∧
      (1 ≤ (civilOfSeconds secs).day ∧ (civilOfSeconds secs).day ≤ 31) ∧
      (0 ≤ (civilOfSeconds secs).hour ∧ (civilOfSeconds secs).hour ≤ 23) ∧
      (0 ≤ (civilOfSeconds secs).minute ∧ (civilOfSeconds secs).minute ≤ 59) ∧
      (0 ≤ (civilOfSeconds secs).second ∧ (civilOfSeconds secs).second ≤ 59)) ∧
    (∀ a b : Nat, minDuration ≤ (b : Int) - a → (b : Int) - a ≤ maxDuration →
      saturate ((b : Int) - a) = (b : Int) - a) := by
  refine ⟨?_, printTask_eq h, ?_, civilOfSeconds_ranges, ?_⟩
  · simp only [listTasks]
    congr 1
    exact List.map_congr_left (fun r _ => printTask_eq h r)
  · intro t
    simp only [formatTime, Time.IsZero, decide_eq_true_eq, format_layout]
  · intro a b h1 h2
    simp only [saturate]
    rw [if_neg (not_lt.mpr h2), if_neg (not_lt.mpr h1)]

/-- C10: for every table and identifier argument, `start`, `stop` and
`complete` succeed, add and remove no row, and change only the rows whose
identifier the argument names, and there only the fields they write (`start`:
`start_time` and `status`; `stop` and `complete`: `end_time` and `status`): the
identifier, the name and the other timestamp stay, every other row stays as it
is, and when no row has the identifier the table is left exactly as it was. -/
theorem update_frame (h : Host) (s : Store) (now : Nat) (c : Context) :
    ((startTask h s now c).err = none ∧ (startTask h s now c).db.seq = s.seq ∧
      List.Forall₂ (startFrame (h.rowid c.First) now) s.rows (startTask h s now c).db.rows ∧
      ((∀ r ∈ s.rows, h.rowid c.First ≠ some (r.id : Int)) → (startTask h s now c).db = s)) ∧
    ((stopTask h s now c).err = none ∧ (stopTask h s now c).db.seq = s.seq ∧
      List.Forall₂ (endFrame (h.rowid c.First) now "stopped") s.rows
        (stopTask h s now c).db.rows ∧
      ((∀ r ∈ s.rows, h.rowid c.First ≠ some (r.id : Int)) → (stopTask h s now c).db = s)) ∧
    ((completeTask h s now c).err = none ∧ (completeTask h s now c).db.seq = s.seq ∧
      List.Forall₂ (endFrame (h.rowid c.First) now "completed") s.rows
        (completeTask h s now c).db.rows ∧
      ((∀ r ∈ s.rows, h.rowid c.First ≠ some (r.id : Int)) →
        (completeTask h s now c).db = s)) :=
  ⟨⟨rfl, rfl, updateStart_frame h s now _, updateStart_unmatched h s now _ _⟩,
    ⟨rfl, rfl, updateEnd_frame h s now _ _, updateEnd_unmatched h s now _ _⟩,
    ⟨rfl, rfl, updateEnd_frame h s now _ _, updateEnd_unmatched h s now _ _⟩⟩

end TaskTimer
